import Mathlib

/-
Verification development for the ESP32 UART LDPC encoder client
(src/src/main.cpp). The protocol core - sync-tag detection, parameter
negotiation, block-wise data transfer and the session driver - is shallowly
embedded below. Machine integers are modelled as Nat; on the ESP32 all
uint16_t arithmetic is performed after promotion to 32-bit int, so the only
places a `% 2^w` truncation can actually occur are stores into narrower
variables, and those are modelled explicitly (`% 256` for uint8_t reads and
stores, `% 65536` for the one uint16_t store that can exceed 16 bits, namely
totalEncodedBytes in handleEncoding).

The UART input is modelled as the list of bytes that the device puts on the
wire early enough to beat every timeout: a phase that needs more bytes than
remain in the list times out. Bytes written by the host are collected in
lists; the encoded_buffer and message_buffer arrays are total functions from
index to stored byte, with no bounds applied (matching raw C array writes),
so out-of-bounds accesses are expressible as indices at or beyond capacity.
-/

set_option maxRecDepth 16384

namespace LdpcClient

/-- LDPC protocol constants (main.cpp lines 10-14). -/
def LDPC_TAG_0 : Nat := 0xde

/-- Second sync-tag byte (line 11). -/
def LDPC_TAG_1 : Nat := 0xad

/-- Third sync-tag byte (line 12). -/
def LDPC_TAG_2 : Nat := 0xc0

/-- Fourth sync-tag byte (line 13). -/
def LDPC_TAG_3 : Nat := 0xde

/-- MAX_MESSAGE_LENGTH (line 14): capacity of message_buffer in bytes. -/
def MAX_MESSAGE_LENGTH : Nat := 1024

/-- Capacity in bytes of `uint8_t encoded_buffer[MAX_MESSAGE_LENGTH * 2]`
(line 42): valid indices are 0 .. 2047. -/
def encodedBufferCapacity : Nat := MAX_MESSAGE_LENGTH * 2

/-- SystemState enum values (lines 17-24). Only STATE_IDLE is ever stored. -/
def STATE_IDLE : Nat := 0

/-- InputMode enum (lines 27-32). -/
def INPUT_TEXT : Nat := 1

/-- Hex input mode (line 30). -/
def INPUT_HEX : Nat := 2

/-- Hex input with manually entered bit length (line 31). -/
def INPUT_HEX_MANUAL : Nat := 3

/-- Expected tag byte at match-cursor position idx (0-based). -/
def tagByte (idx : Nat) : Nat :=
  if idx = 0 then LDPC_TAG_0
  else if idx = 1 then LDPC_TAG_1
  else if idx = 2 then LDPC_TAG_2
  else LDPC_TAG_3

/-- One step of waitForTag's if-else cascade on a received byte
(lines 97-121): a byte matching the tag byte at the current cursor advances
the cursor, position 3 matched yields 4 (accept, `return true`); any other
byte falls through every branch to `tagIndex = 0`. Note that the fall-through
does not re-test the byte against position 0. -/
def tagStep (tagIndex b : Nat) : Nat :=
  if b = LDPC_TAG_0 ∧ tagIndex = 0 then 1
  else if b = LDPC_TAG_1 ∧ tagIndex = 1 then 2
  else if b = LDPC_TAG_2 ∧ tagIndex = 2 then 3
  else if b = LDPC_TAG_3 ∧ tagIndex = 3 then 4
  else 0

/-- waitForTag's read loop (lines 91-124) over the stream of bytes arriving
before the 5 s timeout. Consumes one byte per iteration (`Serial2.read()`
stored into a uint8_t, hence `% 256`); returns whether the tag completed and
the bytes left unread. An exhausted stream is the timeout (line 126-127). -/
def waitForTagAux : Nat → List Nat → Bool × List Nat
  | _, [] => (false, [])
  | tagIndex, b :: rest =>
    if tagStep tagIndex (b % 256) = 4 then (true, rest)
    else waitForTagAux (tagStep tagIndex (b % 256)) rest

/-- waitForTag (lines 84-128), starting from tagIndex = 0. -/
def waitForTag (s : List Nat) : Bool := (waitForTagAux 0 s).1

/-- receiveParameters (lines 144-169): once at least 4 bytes are available
(before the 3 s timeout) it consumes exactly four, building
`K = ((uint16_t)k_hi << 8) | k_lo` and `N = ((uint16_t)n_hi << 8) | n_lo`
and returns true; fewer than 4 bytes in the whole arrival window is the
timeout (returns none). Remaining bytes are left in the stream. -/
def receiveParameters (s : List Nat) : Option ((Nat × Nat) × List Nat) :=
  match s with
  | k_hi :: k_lo :: n_hi :: n_lo :: rest =>
    some ((((k_hi % 256) <<< 8) ||| (k_lo % 256),
           ((n_hi % 256) <<< 8) ||| (n_lo % 256)), rest)
  | _ => none

/-- The `(x + 7) / 8` ceiling-to-bytes computation used for K_bytes
(line 173), the message byte bound (line 188) and N_bytes (line 194).
All fit a uint16_t: the int-promoted quotient is at most 8192. -/
def bytesOf (bits : Nat) : Nat := (bits + 7) / 8

/-- line 174: `bitsForCalculation = (calculationBits > 0) ? calculationBits
: messageBits`. -/
def effectiveBits (calculationBits messageBits : Nat) : Nat :=
  if calculationBits > 0 then calculationBits else messageBits

/-- line 175: block count `C = (bitsForCalculation + K - 1) / K`. Computed in
promoted int; the result is at most bitsForCalculation (for K >= 1), so the
uint16_t store never truncates and no `% 65536` is needed. The C expression
divides by zero when K = 0; theorems about it assume 0 < K. -/
def numBlocks (K bits : Nat) : Nat := (bits + K - 1) / K

/-- Net effect on encoded_buffer of the per-block receive loop
(lines 200-208): the received bytes land consecutively from
`encoded_buffer[base]`, base = block * N_bytes; each store is into a uint8_t
cell (`% 256`). Cells outside the written range keep their previous value. -/
def storeBytes (buf : Nat → Nat) (base : Nat) (bytes : List Nat) : Nat → Nat :=
  fun j =>
    if base ≤ j ∧ j < base + bytes.length then bytes.getD (j - base) 0 % 256
    else buf j

/-- Bytes written to Serial2 for one block (lines 185-191):
`dataIndex = block * K_bytes + i`, and the byte sent is `data[dataIndex]`
when `dataIndex < (messageBits + 7) / 8`, else 0 (zero padding). dataIndex
is stored into a uint16_t, but block * K_bytes + i <= C * K_bytes - 1
< 2^16 for every reachable combination, so no truncation is modelled. -/
def sentBlockBytes (K_bytes msgByteLen : Nat) (data : Nat → Nat) (block : Nat) :
    List Nat :=
  (List.range K_bytes).map fun i =>
    if block * K_bytes + i < msgByteLen then data (block * K_bytes + i) % 256
    else 0

/-- Result of a block-transfer run: overall success flag, the bytes written
to the device per executed block, the bytes received per executed block, the
final encoded_buffer, and the unconsumed UART input. -/
structure BlockRunResult where
  ok : Bool
  sent : List (List Nat)
  recvd : List (List Nat)
  buf : Nat → Nat
  rest : List Nat

/-- The `for (block = 0; block < C; block++)` body of sendMessageData
(lines 180-217): send the block's K_bytes, then collect up to N_bytes reply
bytes into encoded_buffer at offset block * N_bytes; if fewer than N_bytes
arrive before the 3 s block timeout the whole transfer returns false at once
(lines 210-214), leaving the partial bytes in the buffer and executing no
further block. `rem` counts the blocks still to run. -/
def blockRun (K_bytes N_bytes msgByteLen : Nat) (data : Nat → Nat) :
    Nat → Nat → (Nat → Nat) → List Nat → BlockRunResult
  | _, 0, buf, s => ⟨true, [], [], buf, s⟩
  | block, rem + 1, buf, s =>
    let sentBlock := sentBlockBytes K_bytes msgByteLen data block
    let recvdBlock := s.take N_bytes
    let buf2 := storeBytes buf (block * N_bytes) recvdBlock
    let s2 := s.drop N_bytes
    if recvdBlock.length < N_bytes then ⟨false, [sentBlock], [recvdBlock], buf2, s2⟩
    else
      let r := blockRun K_bytes N_bytes msgByteLen data (block + 1) rem buf2 s2
      ⟨r.ok, sentBlock :: r.sent, recvdBlock :: r.recvd, r.buf, r.rest⟩

/-- sendMessageData (lines 171-220): computes K_bytes, bitsForCalculation
and C, then runs the block loop from block 0 with the current
encoded_buffer. -/
def sendMessageData (K N : Nat) (data : Nat → Nat)
    (messageBits calculationBits : Nat) (buf : Nat → Nat) (s : List Nat) :
    BlockRunResult :=
  blockRun (bytesOf K) (bytesOf N) (bytesOf messageBits) data 0
    (numBlocks K (effectiveBits calculationBits messageBits)) buf s

/-- String::toUpperCase on one character: lowercase ASCII letters map to
uppercase, everything else is unchanged. -/
def toUpperChar (c : Nat) : Nat := if 97 ≤ c ∧ c ≤ 122 then c - 32 else c

/-- Value of an ASCII character as a hexadecimal digit, none for
non-hex-digit characters. (The lowercase arm is unreachable after
toUpperCase but kept for faithfulness to strtol.) -/
def hexDigitVal (c : Nat) : Option Nat :=
  if 48 ≤ c ∧ c ≤ 57 then some (c - 48)
  else if 65 ≤ c ∧ c ≤ 70 then some (c - 55)
  else if 97 ≤ c ∧ c ≤ 102 then some (c - 87)
  else none

/-- C `isspace` over the characters that can still occur after hexToBits
removed ' ', '\n' and '\r': tab, vertical tab, form feed (codes 9, 11, 12);
32, 10, 13 are included for completeness. -/
def isSpaceChar (c : Nat) : Bool :=
  c == 32 || c == 9 || c == 10 || c == 11 || c == 12 || c == 13

/-- `strtol(s, NULL, 16)` on the two-character substrings hexToBits feeds it
(line 244): skip a leading space character or take an optional sign, then
read hex digits greedily; no digits parses as 0. A pair like "0X" parses the
leading "0". -/
def strtol2 (c1 c2 : Nat) : Int :=
  if isSpaceChar c1 then (match hexDigitVal c2 with | some v => (v : Int) | none => 0)
  else if c1 = 43 then (match hexDigitVal c2 with | some v => (v : Int) | none => 0)
  else if c1 = 45 then (match hexDigitVal c2 with | some v => -(v : Int) | none => 0)
  else
    match hexDigitVal c1 with
    | none => 0
    | some v1 =>
      match hexDigitVal c2 with
      | none => (v1 : Int)
      | some v2 => 16 * v1 + v2

/-- The byte stored by `buffer[byteCount] = (uint8_t)strtol(...)`
(line 244): conversion of the long result to uint8_t is reduction
modulo 256. -/
def strtolPair (c1 c2 : Nat) : Nat := (strtol2 c1 c2 % 256).toNat

/-- The hexToBits loop (lines 241-246): consecutive character pairs, a
trailing lone character is dropped (the `i + 1 < length` guard). -/
def hexPairsVals : List Nat → List Nat
  | c1 :: c2 :: rest => strtolPair c1 c2 :: hexPairsVals rest
  | _ => []

/-- hexToBits (lines 232-248): remove ' ', '\n', '\r', uppercase, convert
character pairs to bytes (at most MAX_MESSAGE_LENGTH of them, the
`byteCount < MAX_MESSAGE_LENGTH` guard), store them at the front of
message_buffer and return the bit count `byteCount * 8`. The string is the
list of its character codes. -/
def hexToBits (hexStr : List Nat) (buffer : Nat → Nat) : Nat × (Nat → Nat) :=
  let cleanHex := (hexStr.filter fun c => c != 32 && c != 10 && c != 13).map toUpperChar
  let bytes := (hexPairsVals cleanHex).take MAX_MESSAGE_LENGTH
  (bytes.length * 8, fun i => if i < bytes.length then bytes.getD i 0 else buffer i)

/-- textToBits (lines 222-230): copy at most MAX_MESSAGE_LENGTH - 1 = 1023
characters into message_buffer and return `byteCount * 8`. The
`(uint16_t)text.length()` cast is `% 65536`; charAt values are stored into
uint8_t cells (`% 256`). -/
def textToBits (text : List Nat) (buffer : Nat → Nat) : Nat × (Nat → Nat) :=
  let byteCount := min (text.length % 65536) (MAX_MESSAGE_LENGTH - 1)
  (byteCount * 8, fun i => if i < byteCount then text.getD i 0 % 256 else buffer i)

/-- The client's global mutable state (lines 34-43): currentState (assigned
only by its initializer, line 34), the negotiated K and N, message_bits, the
two buffers and lastInputMode. The unused global inputMode is omitted; the
local manual_message_bits of handleEncoding is a parameter of the session
run below. -/
structure ClientState where
  currentState : Nat
  K : Nat
  N : Nat
  message_bits : Nat
  message_buffer : Nat → Nat
  encoded_buffer : Nat → Nat
  lastInputMode : Nat

/-- State at boot: globals zero-initialized, currentState = STATE_IDLE,
lastInputMode = INPUT_TEXT (lines 34-43). -/
def initialClientState : ClientState :=
  ⟨STATE_IDLE, 0, 0, 0, fun _ => 0, fun _ => 0, INPUT_TEXT⟩

/-- handleEncoding (lines 250-359). Arguments: the globals, the menu mode,
the manual-length line as parsed by `String::toInt` (a long; the uint16_t
store is `% 65536`; it is read only in INPUT_HEX_MANUAL mode - in the other
modes the C local is uninitialized but never read, modelled as 0), the
trimmed user message as character codes, and the UART input stream. The
phases consume the stream in order: waitForTag, then receiveParameters on
what it left, then the block replies. Returns the updated globals and, when
the session completes, the `totalEncodedBytes` count printed at line 356
(`((bitsUsedForCalculation + K - 1) / K) * ((N + 7) / 8)` truncated by its
uint16_t store); none when any phase fails (early return). -/
def handleEncoding (st : ClientState) (mode : Nat) (manualLengthInput : Int)
    (userInput : List Nat) (uart : List Nat) : ClientState × Option Nat :=
  let manual_message_bits :=
    if mode = INPUT_HEX_MANUAL then (manualLengthInput % 65536).toNat else 0
  let st1 := { st with lastInputMode := mode }
  if userInput.length = 0 then (st1, none)
  else
    let conv :=
      if mode = INPUT_TEXT then textToBits userInput st1.message_buffer
      else hexToBits userInput st1.message_buffer
    let st2 := { st1 with message_bits := conv.1, message_buffer := conv.2 }
    let tagRes := waitForTagAux 0 uart
    if tagRes.1 = false then (st2, none)
    else
      match receiveParameters tagRes.2 with
      | none => (st2, none)
      | some ((k, n), rest) =>
        let st3 := { st2 with K := k, N := n }
        let run := sendMessageData st3.K st3.N st3.message_buffer st3.message_bits
          (if mode = INPUT_HEX_MANUAL then manual_message_bits else 0)
          st3.encoded_buffer rest
        let st4 := { st3 with encoded_buffer := run.buf }
        if run.ok = false then (st4, none)
        else
          let bitsUsedForCalculation :=
            if mode = INPUT_HEX_MANUAL then manual_message_bits else st4.message_bits
          (st4, some ((numBlocks st4.K bitsUsedForCalculation * bytesOf st4.N) % 65536))

/-- Menu option 5 (loop, lines 419-433): when K > 0, N > 0 and
message_bits > 0 it prints `((message_bits + K - 1) / K) * ((N + 7) / 8)`
encoded bytes (uint16_t store, hence % 65536) - note: message_bits, not the
manual calculation length; otherwise it prints nothing. -/
def lastResultsBytes (st : ClientState) : Option Nat :=
  if st.K > 0 ∧ st.N > 0 ∧ st.message_bits > 0 then
    some ((numBlocks st.K st.message_bits * bytesOf st.N) % 65536)
  else none

/-- The first idx tag bytes, i.e. what a cursor value of idx certifies was
just consumed. -/
def tagMatched (idx : Nat) : List Nat := (List.range idx).map tagByte

/-- Case analysis of the waitForTag cascade: a step either resets the cursor
to 0 or, exactly when the byte equals the tag byte at the cursor and the
cursor is in range, advances it by one (reaching 4 means accept). -/
theorem tagStep_spec (idx b : Nat) :
    tagStep idx b = 0 ∨ (idx < 4 ∧ b = tagByte idx ∧ tagStep idx b = idx + 1) := by
  unfold tagStep
  split_ifs with h1 h2 h3 h4
  · exact Or.inr ⟨by omega, by simp [tagByte, h1.1, h1.2], by omega⟩
  · exact Or.inr ⟨by omega, by simp [tagByte, h2.1, h2.2], by omega⟩
  · exact Or.inr ⟨by omega, by simp [tagByte, h3.1, h3.2], by omega⟩
  · exact Or.inr ⟨by omega, by simp [tagByte, h4.1, h4.2], by omega⟩
  · exact Or.inl rfl

/-- tagMatched idx extended by the matching byte is tagMatched (idx + 1). -/
theorem tagMatched_succ (idx : Nat) :
    tagMatched (idx + 1) = tagMatched idx ++ [tagByte idx] := by
  simp [tagMatched, List.range_succ]

/-- If the read loop accepts, some prefix of the stream drives the cursor
from idx to 4. -/
theorem foldl_of_waitForTagAux : ∀ (s : List Nat) (idx : Nat),
    (waitForTagAux idx s).1 = true →
    ∃ n, n ≤ s.length ∧ (s.take n).foldl (fun i b => tagStep i (b % 256)) idx = 4
  | [], idx => by simp [waitForTagAux]
  | b :: r, idx => by
    intro h
    by_cases h4 : tagStep idx (b % 256) = 4
    · exact ⟨1, by simp, by simpa using h4⟩
    · rw [show waitForTagAux idx (b :: r)
            = waitForTagAux (tagStep idx (b % 256)) r by simp [waitForTagAux, h4]] at h
      obtain ⟨n, hn, hf⟩ := foldl_of_waitForTagAux r (tagStep idx (b % 256)) h
      exact ⟨n + 1, by simpa using Nat.succ_le_succ hn, by simpa using hf⟩

/-- Conversely, if some prefix of the stream drives the cursor from idx
(idx not already the accept value) to 4, the read loop accepts. -/
theorem waitForTagAux_of_foldl : ∀ (s : List Nat) (idx n : Nat), idx ≠ 4 →
    (s.take n).foldl (fun i b => tagStep i (b % 256)) idx = 4 →
    (waitForTagAux idx s).1 = true
  | [], idx, n => by
    intro hne hf
    simp at hf
    exact absurd hf hne
  | b :: r, idx, 0 => by
    intro hne hf
    simp at hf
    exact absurd hf hne
  | b :: r, idx, n + 1 => by
    intro hne hf
    rw [List.take_succ_cons, List.foldl_cons] at hf
    by_cases h4 : tagStep idx (b % 256) = 4
    · simp [waitForTagAux, h4]
    · have := waitForTagAux_of_foldl r (tagStep idx (b % 256)) n h4 hf
      simpa [waitForTagAux, h4] using this

/-- Acceptance starting from a cursor that certifies tagMatched idx implies
the exact 4-byte tag occurs contiguously in tagMatched idx ++ stream, at the
position the cursor run matched it. -/
theorem waitForTagAux_sound : ∀ (s : List Nat) (idx : Nat), idx ≤ 3 →
    (∀ b ∈ s, b < 256) → (waitForTagAux idx s).1 = true →
    ∃ pre rest, tagMatched idx ++ s =
      pre ++ [LDPC_TAG_0, LDPC_TAG_1, LDPC_TAG_2, LDPC_TAG_3] ++ rest
  | [], idx => by simp [waitForTagAux]
  | b :: r, idx => by
    intro hidx hb h
    have hb256 : b % 256 = b := Nat.mod_eq_of_lt (hb b (by simp))
    by_cases h4 : tagStep idx (b % 256) = 4
    · rcases tagStep_spec idx (b % 256) with hz | ⟨_, hbe, hsucc⟩
      · omega
      · have hidx3 : idx = 3 := by omega
        subst hidx3
        refine ⟨[], r, ?_⟩
        have hbval : b = tagByte 3 := by rw [← hb256]; exact hbe
        simp [tagMatched, List.range_succ, hbval, tagByte]
    · rw [show waitForTagAux idx (b :: r)
            = waitForTagAux (tagStep idx (b % 256)) r by simp [waitForTagAux, h4]] at h
      rcases tagStep_spec idx (b % 256) with hz | ⟨_, hbe, hsucc⟩
      · rw [hz] at h
        obtain ⟨pre, rest, hpr⟩ :=
          waitForTagAux_sound r 0 (by omega) (fun x hx => hb x (by simp [hx])) h
        refine ⟨tagMatched idx ++ [b] ++ pre, rest, ?_⟩
        have : tagMatched 0 ++ r = r := by simp [tagMatched]
        rw [this] at hpr
        simp [hpr, List.append_assoc]
      · rw [hsucc] at h
        obtain ⟨pre, rest, hpr⟩ :=
          waitForTagAux_sound r (idx + 1) (by omega) (fun x hx => hb x (by simp [hx])) h
        refine ⟨pre, rest, ?_⟩
        rw [tagMatched_succ] at hpr
        have hbval : b = tagByte idx := by rw [← hb256]; exact hbe
        rw [show tagMatched idx ++ b :: r = tagMatched idx ++ [tagByte idx] ++ r by
          simp [hbval]]
        exact hpr

/-- C7: in waitForTag, a byte equal to the tag byte at the current cursor
advances the cursor by one; any other byte resets the cursor to 0 without
being re-examined against position 0 in the same step (in particular a
second 0xDE seen at cursor 1 or 2 yields cursor 0, not 1); and the detector
returns true exactly when some prefix of the bytes arriving before the
timeout drives the cursor to 4, otherwise it reports the timeout failure. -/
theorem c7_sync_cursor :
    (∀ i, i < 4 → tagStep i (tagByte i) = i + 1) ∧
    (∀ i b, i < 4 → b ≠ tagByte i → tagStep i b = 0) ∧
    (∀ s, waitForTag s = true ↔
      ∃ n, n ≤ s.length ∧ (s.take n).foldl (fun i b => tagStep i (b % 256)) 0 = 4) := by
  refine ⟨?_, ?_, ?_⟩
  · intro i hi
    interval_cases i <;> decide
  · intro i b _ hbne
    rcases tagStep_spec i b with h | ⟨_, hbe, _⟩
    · exact h
    · exact absurd hbe hbne
  · intro s
    exact ⟨fun h => foldl_of_waitForTagAux s 0 h,
           fun ⟨n, _, hf⟩ => waitForTagAux_of_foldl s 0 n (by omega) hf⟩

/-- C7 witness: a 0xDE arriving while the cursor is at position 1 resets the
cursor to 0 (it is not re-tested as a new tag start), and the clean tag
stream is accepted. -/
theorem c7_witness : tagStep 1 0xde = 0 ∧ waitForTag [0xde, 0xad, 0xc0, 0xde] = true :=
  ⟨c7_sync_cursor.2.1 1 0xde (by decide) (by decide),
   (c7_sync_cursor.2.2 [0xde, 0xad, 0xc0, 0xde]).mpr ⟨4, by decide, by decide⟩⟩

/-- C2 counterexample: the claim asserts the stream DE DE AD C0 DE is
accepted (matching from its second byte); the code rejects it - the second
0xDE resets the cursor without being re-examined, so the tag occurrence
starting at the second byte is missed and the 5 s window expires. -/
theorem c2_counterexample : waitForTag [0xde, 0xde, 0xad, 0xc0, 0xde] = false := by
  decide

/-- C2 (amended): waitForTag rejects the stream DE DE AD C0 DE (the
mismatching duplicate DE forfeits progress and is not re-tested, so the
overlapped tag at offset 1 is missed), and it never accepts a window that is
not exactly DE AD C0 DE: whenever it accepts a byte stream, that stream
contains the contiguous bytes DE AD C0 DE. -/
theorem c2_tag_detection :
    waitForTag [0xde, 0xde, 0xad, 0xc0, 0xde] = false ∧
    ∀ s, (∀ b ∈ s, b < 256) → waitForTag s = true →
      ∃ pre rest, s = pre ++ [0xde, 0xad, 0xc0, 0xde] ++ rest := by
  refine ⟨by decide, fun s hs h => ?_⟩
  obtain ⟨pre, rest, hpr⟩ := waitForTagAux_sound s 0 (by omega) hs h
  refine ⟨pre, rest, ?_⟩
  have h0 : tagMatched 0 ++ s = s := by simp [tagMatched]
  rw [h0] at hpr
  exact hpr

/-- C2 witness: the soundness half applied to the exact tag stream. -/
theorem c2_witness :
    ∃ pre rest, [0xde, 0xad, 0xc0, 0xde] = pre ++ [0xde, 0xad, 0xc0, 0xde] ++ rest :=
  c2_tag_detection.2 [0xde, 0xad, 0xc0, 0xde] (by decide) (by decide)

/-- Big-endian assembly: for a low byte below 256, the bitwise or of the
shifted high byte with the low byte is 256 * hi + lo. -/
theorem word_be_eq (hi lo : Nat) (h : lo < 256) : (hi <<< 8) ||| lo = 256 * hi + lo := by
  rw [Nat.shiftLeft_eq, Nat.mul_comm]
  have h2 : lo < 2 ^ 8 := by norm_num [h]
  have := (Nat.mul_add_lt_is_or h2 hi).symm
  simpa using this

/-- Shared helper: the success case of receiveParameters in big-endian
arithmetic form, for byte-valued inputs. -/
theorem receiveParameters_cons (k_hi k_lo n_hi n_lo : Nat) (rest : List Nat)
    (h1 : k_hi < 256) (h2 : k_lo < 256) (h3 : n_hi < 256) (h4 : n_lo < 256) :
    receiveParameters (k_hi :: k_lo :: n_hi :: n_lo :: rest) =
      some ((256 * k_hi + k_lo, 256 * n_hi + n_lo), rest) := by
  simp only [receiveParameters]
  rw [Nat.mod_eq_of_lt h1, Nat.mod_eq_of_lt h2, Nat.mod_eq_of_lt h3,
    Nat.mod_eq_of_lt h4, word_be_eq _ _ h2, word_be_eq _ _ h4]

/-- C3 counterexample: a device reply of four zero bytes makes
receiveParameters return success while storing K = 0 and N = 0, so success
does not imply K > 0 and N > 0. -/
theorem c3_counterexample :
    receiveParameters [0, 0, 0, 0] = some ((0, 0), []) ∧ ¬ (0 < 0 ∧ 0 < 0) := by
  decide

/-- C3 (amended): on success receiveParameters stores K and N as the
big-endian decodings of the four received bytes with no validation
whatsoever: K > 0 holds iff the two K bytes are not both zero, and likewise
for N. (Hence the division by K in sendMessageData is protected only if the
device never sends K = 0.) -/
theorem c3_no_validation : ∀ k_hi k_lo n_hi n_lo : Nat, ∀ rest : List Nat,
    k_hi < 256 → k_lo < 256 → n_hi < 256 → n_lo < 256 →
    receiveParameters (k_hi :: k_lo :: n_hi :: n_lo :: rest) =
      some ((256 * k_hi + k_lo, 256 * n_hi + n_lo), rest) ∧
    (0 < 256 * k_hi + k_lo ↔ ¬(k_hi = 0 ∧ k_lo = 0)) ∧
    (0 < 256 * n_hi + n_lo ↔ ¬(n_hi = 0 ∧ n_lo = 0)) := by
  intro k_hi k_lo n_hi n_lo rest h1 h2 h3 h4
  exact ⟨receiveParameters_cons k_hi k_lo n_hi n_lo rest h1 h2 h3 h4, by omega, by omega⟩

/-- C3 witness: parameter bytes 00 04 00 08 negotiate to K = 4, N = 8. -/
theorem c3_witness : receiveParameters [0, 4, 0, 8] = some ((4, 8), []) :=
  ((c3_no_validation 0 4 0 8 [] (by decide) (by decide) (by decide) (by decide)).1).trans
    (by decide)

/-- C8: when at least four bytes arrive in time, receiveParameters consumes
exactly the first four, decoding K from the first two (big-endian) and N
from the next two, and leaves every further buffered byte unconsumed; when
fewer than four bytes arrive within the timeout it reports failure. -/
theorem c8_receive_params : ∀ k_hi k_lo n_hi n_lo : Nat, ∀ rest : List Nat,
    k_hi < 256 → k_lo < 256 → n_hi < 256 → n_lo < 256 →
    (receiveParameters (k_hi :: k_lo :: n_hi :: n_lo :: rest) =
      some ((256 * k_hi + k_lo, 256 * n_hi + n_lo), rest)) ∧
    ∀ s : List Nat, s.length < 4 → receiveParameters s = none := by
  intro k_hi k_lo n_hi n_lo rest h1 h2 h3 h4
  refine ⟨receiveParameters_cons k_hi k_lo n_hi n_lo rest h1 h2 h3 h4, ?_⟩
  intro s hs
  rcases s with _ | ⟨a, _ | ⟨b, _ | ⟨c, _ | ⟨d, t⟩⟩⟩⟩
  · rfl
  · rfl
  · rfl
  · rfl
  · simp at hs
    omega

/-- C8 witness: 10 00 20 00 followed by a stray byte 0x63 negotiates
K = 4096, N = 8192 and leaves the stray byte buffered; a 3-byte arrival
window is a failure. -/
theorem c8_witness :
    receiveParameters [16, 0, 32, 0, 99] = some ((4096, 8192), [99]) ∧
    receiveParameters [1, 2, 3] = none := by
  have h := c8_receive_params 16 0 32 0 [99] (by decide) (by decide) (by decide) (by decide)
  exact ⟨h.1.trans (by decide), h.2 [1, 2, 3] (by decide)⟩

/-- Unfolding lemma: no blocks left. -/
theorem blockRun_zero (K_bytes N_bytes msgByteLen : Nat) (data : Nat → Nat)
    (block : Nat) (buf : Nat → Nat) (s : List Nat) :
    blockRun K_bytes N_bytes msgByteLen data block 0 buf s = ⟨true, [], [], buf, s⟩ := rfl

/-- Unfolding lemma: the current block's replies fall short of N_bytes -
the run fails at once with the partial bytes stored. -/
theorem blockRun_succ_fail (K_bytes N_bytes msgByteLen : Nat) (data : Nat → Nat)
    (block rem : Nat) (buf : Nat → Nat) (s : List Nat)
    (h : (s.take N_bytes).length < N_bytes) :
    blockRun K_bytes N_bytes msgByteLen data block (rem + 1) buf s =
      ⟨false, [sentBlockBytes K_bytes msgByteLen data block], [s.take N_bytes],
        storeBytes buf (block * N_bytes) (s.take N_bytes), s.drop N_bytes⟩ := by
  simp only [blockRun]
  rw [if_pos h]

/-- Unfolding lemma: the current block completes and the loop continues. -/
theorem blockRun_succ_ok (K_bytes N_bytes msgByteLen : Nat) (data : Nat → Nat)
    (block rem : Nat) (buf : Nat → Nat) (s : List Nat)
    (h : ¬ (s.take N_bytes).length < N_bytes) :
    blockRun K_bytes N_bytes msgByteLen data block (rem + 1) buf s =
      ⟨(blockRun K_bytes N_bytes msgByteLen data (block + 1) rem
          (storeBytes buf (block * N_bytes) (s.take N_bytes)) (s.drop N_bytes)).ok,
        sentBlockBytes K_bytes msgByteLen data block ::
          (blockRun K_bytes N_bytes msgByteLen data (block + 1) rem
            (storeBytes buf (block * N_bytes) (s.take N_bytes)) (s.drop N_bytes)).sent,
        s.take N_bytes ::
          (blockRun K_bytes N_bytes msgByteLen data (block + 1) rem
            (storeBytes buf (block * N_bytes) (s.take N_bytes)) (s.drop N_bytes)).recvd,
        (blockRun K_bytes N_bytes msgByteLen data (block + 1) rem
          (storeBytes buf (block * N_bytes) (s.take N_bytes)) (s.drop N_bytes)).buf,
        (blockRun K_bytes N_bytes msgByteLen data (block + 1) rem
          (storeBytes buf (block * N_bytes) (s.take N_bytes)) (s.drop N_bytes)).rest⟩ := by
  simp only [blockRun]
  rw [if_neg h]

/-- On a successful run every executed block received exactly N_bytes reply
bytes, so the total number of received bytes is rem * N_bytes. -/
theorem blockRun_ok_sum (K_bytes N_bytes msgByteLen : Nat) (data : Nat → Nat) :
    ∀ (rem block : Nat) (buf : Nat → Nat) (s : List Nat),
    (blockRun K_bytes N_bytes msgByteLen data block rem buf s).ok = true →
    ((blockRun K_bytes N_bytes msgByteLen data block rem buf s).recvd.map
        List.length).sum = rem * N_bytes
  | 0, block, buf, s => by simp [blockRun_zero]
  | rem + 1, block, buf, s => by
    intro h
    by_cases hlen : (s.take N_bytes).length < N_bytes
    · rw [blockRun_succ_fail K_bytes N_bytes msgByteLen data block rem buf s hlen] at h
      simp at h
    · rw [blockRun_succ_ok K_bytes N_bytes msgByteLen data block rem buf s hlen] at h ⊢
      dsimp only at h ⊢
      have htake : (s.take N_bytes).length = N_bytes := by
        rw [List.length_take] at hlen ⊢
        omega
      have ih := blockRun_ok_sum K_bytes N_bytes msgByteLen data rem (block + 1)
        (storeBytes buf (block * N_bytes) (s.take N_bytes)) (s.drop N_bytes) h
      rw [List.map_cons, List.sum_cons, htake, ih, Nat.succ_mul]
      omega

/-- Every executed block's transmitted bytes are exactly sentBlockBytes at
the corresponding absolute block index. -/
theorem blockRun_sent_getD (K_bytes N_bytes msgByteLen : Nat) (data : Nat → Nat) :
    ∀ (rem block : Nat) (buf : Nat → Nat) (s : List Nat) (b : Nat),
    b < (blockRun K_bytes N_bytes msgByteLen data block rem buf s).sent.length →
    (blockRun K_bytes N_bytes msgByteLen data block rem buf s).sent.getD b [] =
      sentBlockBytes K_bytes msgByteLen data (block + b)
  | 0, block, buf, s, b => by simp [blockRun_zero]
  | rem + 1, block, buf, s, b => by
    intro hb
    by_cases hlen : (s.take N_bytes).length < N_bytes
    · rw [blockRun_succ_fail K_bytes N_bytes msgByteLen data block rem buf s hlen] at hb ⊢
      dsimp only at hb ⊢
      have hb0 : b = 0 := by simpa using hb
      subst hb0
      simp
    · rw [blockRun_succ_ok K_bytes N_bytes msgByteLen data block rem buf s hlen] at hb ⊢
      dsimp only at hb ⊢
      rcases b with _ | b2
      · simp
      · rw [List.getD_cons_succ]
        have ih := blockRun_sent_getD K_bytes N_bytes msgByteLen data rem (block + 1)
          (storeBytes buf (block * N_bytes) (s.take N_bytes)) (s.drop N_bytes) b2
          (by simpa using hb)
        rw [ih]
        congr 1
        omega

/-- The bytes sent for a block depend only on the data function below the
message byte bound (the zero-padding guard prevents any other access). -/
theorem sentBlockBytes_congr (K_bytes msgByteLen : Nat) (data data2 : Nat → Nat)
    (block : Nat) (hagree : ∀ j, j < msgByteLen → data j = data2 j) :
    sentBlockBytes K_bytes msgByteLen data block =
      sentBlockBytes K_bytes msgByteLen data2 block := by
  unfold sentBlockBytes
  refine List.map_congr_left fun i _ => ?_
  by_cases hidx : block * K_bytes + i < msgByteLen
  · rw [if_pos hidx, if_pos hidx, hagree _ hidx]
  · rw [if_neg hidx, if_neg hidx]

/-- The whole transfer run depends only on the data function below the
message byte bound. -/
theorem blockRun_congr (K_bytes N_bytes msgByteLen : Nat) (data data2 : Nat → Nat)
    (hagree : ∀ j, j < msgByteLen → data j = data2 j) :
    ∀ (rem block : Nat) (buf : Nat → Nat) (s : List Nat),
    blockRun K_bytes N_bytes msgByteLen data block rem buf s =
      blockRun K_bytes N_bytes msgByteLen data2 block rem buf s
  | 0, block, buf, s => rfl
  | rem + 1, block, buf, s => by
    have hs := sentBlockBytes_congr K_bytes msgByteLen data data2 block hagree
    by_cases hlen : (s.take N_bytes).length < N_bytes
    · rw [blockRun_succ_fail K_bytes N_bytes msgByteLen data block rem buf s hlen,
        blockRun_succ_fail K_bytes N_bytes msgByteLen data2 block rem buf s hlen, hs]
    · rw [blockRun_succ_ok K_bytes N_bytes msgByteLen data block rem buf s hlen,
        blockRun_succ_ok K_bytes N_bytes msgByteLen data2 block rem buf s hlen, hs,
        blockRun_congr K_bytes N_bytes msgByteLen data data2 hagree rem (block + 1)
          (storeBytes buf (block * N_bytes) (s.take N_bytes)) (s.drop N_bytes)]

/-- Offset i of a block's transmitted bytes, in closed form. -/
theorem sentBlockBytes_getD (K_bytes msgByteLen : Nat) (data : Nat → Nat)
    (block i : Nat) (hi : i < K_bytes) :
    (sentBlockBytes K_bytes msgByteLen data block).getD i 0 =
      if block * K_bytes + i < msgByteLen then data (block * K_bytes + i) % 256
      else 0 := by
  unfold sentBlockBytes
  rw [List.getD_eq_getElem?_getD, List.getElem?_map, List.getElem?_range hi]
  rfl

/-- getD after drop reads the original list at the shifted index. -/
theorem getD_drop (s : List Nat) (n m : Nat) :
    (s.drop n).getD m 0 = s.getD (n + m) 0 := by
  rw [List.getD_eq_getElem?_getD, List.getD_eq_getElem?_getD, List.getElem?_drop]

/-- If the reply stream ends after k full blocks plus p < N_bytes bytes
(k < rem blocks remaining), the run fails, exactly k + 1 block sends were
written to the transport, and the p partial bytes sit in the buffer at the
failing block's offset. -/
theorem blockRun_timeout (K_bytes N_bytes msgByteLen : Nat) (data : Nat → Nat) :
    ∀ (k rem block : Nat) (buf : Nat → Nat) (s : List Nat) (p : Nat),
    k < rem → s.length = k * N_bytes + p → p < N_bytes →
    (blockRun K_bytes N_bytes msgByteLen data block rem buf s).ok = false ∧
    (blockRun K_bytes N_bytes msgByteLen data block rem buf s).sent.length = k + 1 ∧
    ∀ j, j < p →
      (blockRun K_bytes N_bytes msgByteLen data block rem buf s).buf
          ((block + k) * N_bytes + j) =
        s.getD (k * N_bytes + j) 0 % 256
  | 0, rem, block, buf, s, p => by
    intro hk hlen hp
    obtain ⟨rem2, rfl⟩ : ∃ r2, rem = r2 + 1 := ⟨rem - 1, by omega⟩
    rw [Nat.zero_mul] at hlen
    have hstake : s.take N_bytes = s := List.take_of_length_le (by omega)
    have hfail : (s.take N_bytes).length < N_bytes := by rw [hstake]; omega
    rw [blockRun_succ_fail K_bytes N_bytes msgByteLen data block rem2 buf s hfail]
    dsimp only
    refine ⟨rfl, rfl, ?_⟩
    intro j hj
    rw [hstake, Nat.add_zero, Nat.zero_mul, Nat.zero_add]
    unfold storeBytes
    rw [if_pos ⟨by omega, by omega⟩, Nat.add_sub_cancel_left]
  | k + 1, rem, block, buf, s, p => by
    intro hk hlen hp
    obtain ⟨rem2, rfl⟩ : ∃ r2, rem = r2 + 1 := ⟨rem - 1, by omega⟩
    rw [Nat.succ_mul] at hlen
    have hok : ¬ (s.take N_bytes).length < N_bytes := by
      rw [List.length_take]
      omega
    rw [blockRun_succ_ok K_bytes N_bytes msgByteLen data block rem2 buf s hok]
    dsimp only
    have hdl : (s.drop N_bytes).length = k * N_bytes + p := by
      rw [List.length_drop]
      omega
    have ih := blockRun_timeout K_bytes N_bytes msgByteLen data k rem2 (block + 1)
      (storeBytes buf (block * N_bytes) (s.take N_bytes)) (s.drop N_bytes) p
      (by omega) hdl hp
    refine ⟨ih.1, by rw [List.length_cons, ih.2.1], ?_⟩
    intro j hj
    have hbuf := ih.2.2 j hj
    rw [getD_drop] at hbuf
    rw [show block + (k + 1) = block + 1 + k by omega,
      show (k + 1) * N_bytes + j = N_bytes + (k * N_bytes + j) by rw [Nat.succ_mul]; omega]
    exact hbuf

/-- C1: for K > 0 the block count C computed at line 175 is exactly
ceil(bits / K), where bits is the calculation override when positive and the
actual message bit count otherwise (ceiling characterized by
bits <= C * K < bits + K), and a successful transfer receives exactly
C * ceil(N / 8) encoded bytes in total. -/
theorem c1_block_count_and_size (K N messageBits calculationBits : Nat)
    (data : Nat → Nat) (buf : Nat → Nat) (s : List Nat) (hK : 0 < K) :
    (effectiveBits calculationBits messageBits ≤
        numBlocks K (effectiveBits calculationBits messageBits) * K ∧
      numBlocks K (effectiveBits calculationBits messageBits) * K <
        effectiveBits calculationBits messageBits + K) ∧
    ((sendMessageData K N data messageBits calculationBits buf s).ok = true →
      ((sendMessageData K N data messageBits calculationBits buf s).recvd.map
          List.length).sum =
        numBlocks K (effectiveBits calculationBits messageBits) * bytesOf N) := by
  constructor
  · unfold numBlocks
    constructor
    · have h1 := Nat.div_add_mod (effectiveBits calculationBits messageBits + K - 1) K
      have h2 := Nat.mod_lt (effectiveBits calculationBits messageBits + K - 1) hK
      rw [Nat.mul_comm]
      omega
    · have h3 := Nat.div_mul_le_self (effectiveBits calculationBits messageBits + K - 1) K
      omega
  · intro h
    exact blockRun_ok_sum (bytesOf K) (bytesOf N) (bytesOf messageBits) data
      (numBlocks K (effectiveBits calculationBits messageBits)) 0 buf s h

/-- C1 witness: K = 4096, N = 8192, bits = 16 -> C = 1 block and
1 * 1024 = 1024 encoded bytes in total on a successful run. -/
theorem c1_witness :
    numBlocks 4096 (effectiveBits 0 16) = 1 ∧ bytesOf 8192 = 1024 ∧
    ((sendMessageData 4096 8192 (fun _ => 0) 16 0 (fun _ => 0)
        (List.replicate 1024 7)).recvd.map List.length).sum =
      numBlocks 4096 (effectiveBits 0 16) * bytesOf 8192 :=
  ⟨by decide, by decide,
    (c1_block_count_and_size 4096 8192 16 0 (fun _ => 0) (fun _ => 0)
      (List.replicate 1024 7) (by decide)).2 (by decide)⟩

/-- C4: each byte transmitted in block b at offset i (absolute index
b * ceil(K/8) + i) is the message byte at that index when the index is below
ceil(actualBits / 8) and zero otherwise; and the whole run is unchanged when
the data function is replaced by any function agreeing below that bound, so
no message-buffer cell at or beyond ceil(actualBits / 8) is ever read. -/
theorem c4_block_padding (K N messageBits calculationBits : Nat)
    (data : Nat → Nat) (buf : Nat → Nat) (s : List Nat) :
    (∀ b, b < (sendMessageData K N data messageBits calculationBits buf s).sent.length →
      (sendMessageData K N data messageBits calculationBits buf s).sent.getD b [] =
        sentBlockBytes (bytesOf K) (bytesOf messageBits) data b) ∧
    (∀ b i, i < bytesOf K →
      (sentBlockBytes (bytesOf K) (bytesOf messageBits) data b).getD i 0 =
        if b * bytesOf K + i < bytesOf messageBits
        then data (b * bytesOf K + i) % 256 else 0) ∧
    (∀ data2 : Nat → Nat, (∀ j, j < bytesOf messageBits → data j = data2 j) →
      sendMessageData K N data messageBits calculationBits buf s =
        sendMessageData K N data2 messageBits calculationBits buf s) := by
  refine ⟨fun b hb => ?_, fun b i hi => sentBlockBytes_getD _ _ _ _ _ hi,
    fun data2 hagree => ?_⟩
  · have h := blockRun_sent_getD (bytesOf K) (bytesOf N) (bytesOf messageBits) data
      (numBlocks K (effectiveBits calculationBits messageBits)) 0 buf s b hb
    rwa [Nat.zero_add] at h
  · exact blockRun_congr (bytesOf K) (bytesOf N) (bytesOf messageBits) data data2
      hagree (numBlocks K (effectiveBits calculationBits messageBits)) 0 buf s

/-- C4 witness: actualBits = 8 (one real byte 171) with K = 16: the single
transmitted block is that byte followed by exactly one zero byte, although
the data function is nonzero at every index. -/
theorem c4_witness :
    (sendMessageData 16 16 (fun i => 171 + i) 8 0 (fun _ => 0) [9, 9]).sent.getD 0 []
      = [171, 0] :=
  ((c4_block_padding 16 16 8 0 (fun i => 171 + i) (fun _ => 0) [9, 9]).1 0
    (by decide)).trans (by decide)

/-- C5: if the reply stream delivered before the timeouts ends during block
b < C after only p < ceil(N/8) bytes, the transfer returns failure, block
data was written to the transport only for blocks 0..b (b + 1 sends: none
for b+1..C-1), and the p partially received bytes for block b remain in the
encoded buffer at offsets b * ceil(N/8) + j. -/
theorem c5_block_timeout (K N messageBits calculationBits : Nat) (data : Nat → Nat)
    (buf : Nat → Nat) (s : List Nat) (b p : Nat)
    (hb : b < numBlocks K (effectiveBits calculationBits messageBits))
    (hlen : s.length = b * bytesOf N + p) (hp : p < bytesOf N) :
    (sendMessageData K N data messageBits calculationBits buf s).ok = false ∧
    (sendMessageData K N data messageBits calculationBits buf s).sent.length = b + 1 ∧
    ∀ j, j < p →
      (sendMessageData K N data messageBits calculationBits buf s).buf
          (b * bytesOf N + j) =
        s.getD (b * bytesOf N + j) 0 % 256 := by
  have h := blockRun_timeout (bytesOf K) (bytesOf N) (bytesOf messageBits) data
    b (numBlocks K (effectiveBits calculationBits messageBits)) 0 buf s p hb hlen hp
  refine ⟨h.1, h.2.1, fun j hj => ?_⟩
  have h2 := h.2.2 j hj
  rwa [Nat.zero_add] at h2

/-- C5 witness: K = 8, N = 16, 24-bit message -> C = 3 blocks of 2 reply
bytes each; a reply stream of 3 bytes times out on block 1: the run fails,
only blocks 0 and 1 were sent, and the partial byte 7 sits at encoded
offset 2. -/
theorem c5_witness :
    (sendMessageData 8 16 (fun _ => 1) 24 0 (fun _ => 0) [5, 6, 7]).ok = false ∧
    (sendMessageData 8 16 (fun _ => 1) 24 0 (fun _ => 0) [5, 6, 7]).sent.length = 2 ∧
    (sendMessageData 8 16 (fun _ => 1) 24 0 (fun _ => 0) [5, 6, 7]).buf 2 = 7 := by
  have h := c5_block_timeout 8 16 24 0 (fun _ => 1) (fun _ => 0) [5, 6, 7] 1 1
    (by decide) (by decide) (by decide)
  refine ⟨h.1, h.2.1, ?_⟩
  have h2 := h.2.2 0 (by decide)
  simpa [bytesOf] using h2

/-- C9 (code bug): with device-chosen K = 8, N = 8192 and an accepted 3-byte
(24-bit) message, C = 3 and ceil(N/8) = 1024, so block 2's replies are
stored from index 2 * 1024 = 2048 - not below the encoded buffer's 2048-byte
capacity. The run below starts from an all-zero buffer and ends with the
reply byte 205 stored at index 2048: an out-of-bounds write, refuting the
claimed bound. -/
theorem c9_buffer_overflow :
    (sendMessageData 8 8192 (fun i => [1, 2, 3].getD i 0) 24 0 (fun _ => 0)
        (List.replicate 2049 205)).buf 2048 = 205 ∧
    ¬ (2048 < encodedBufferCapacity) := by
  exact ⟨by decide, by decide⟩

/-- C6 (code bug): the state variable never follows the claimed machine.
currentState is assigned only by its initializer (line 34), and a full
session run - whatever its inputs, phase outcomes, or final result - leaves
it untouched, so it is STATE_IDLE before, during and after every session and
never takes the SYNCING / NEGOTIATING / TRANSFERRING / COMPLETED / FAILED
values. -/
theorem c6_state_never_leaves_idle :
    initialClientState.currentState = STATE_IDLE ∧
    ∀ (st : ClientState) (mode : Nat) (m : Int) (input uart : List Nat),
      (handleEncoding st mode m input uart).1.currentState = st.currentState := by
  refine ⟨rfl, fun st mode m input uart => ?_⟩
  unfold handleEncoding
  dsimp only
  repeat' split
  all_goals rfl

/-- C10 counterexample: a completed hex-with-manual-length session (message
"AB" = 8 actual bits, manual calculation length 16 bits, device parameters
K = 4, N = 8) prints 4 encoded bytes at completion, but the option-5
redisplay recomputes the count from message_bits and prints 2. -/
theorem c10_counterexample :
    (handleEncoding initialClientState INPUT_HEX_MANUAL 16 [65, 66]
        [222, 173, 192, 222, 0, 4, 0, 8, 1, 2, 3, 4]).2 = some 4 ∧
    lastResultsBytes (handleEncoding initialClientState INPUT_HEX_MANUAL 16 [65, 66]
        [222, 173, 192, 222, 0, 4, 0, 8, 1, 2, 3, 4]).1 = some 2 ∧
    ¬ (4 : Nat) = 2 := by
  exact ⟨by decide, by decide, by decide⟩

/-- C10 (amended): for completed sessions started in text or plain hex mode
(where the calculation bit count equals the stored message bit count) the
option-5 redisplay prints exactly the byte count shown at session
completion, provided option 5's guard (K, N, message_bits all positive)
holds; in hex-with-manual-length mode option 5 recomputes the count from
message_bits instead of the session's manual calculation length, so the two
displays differ whenever the corresponding block counts differ. -/
theorem c10_redisplay_agree (st : ClientState) (mode : Nat) (m : Int)
    (input uart : List Nat) (st2 : ClientState) (d : Nat)
    (hmode : mode = INPUT_TEXT ∨ mode = INPUT_HEX)
    (h : handleEncoding st mode m input uart = (st2, some d))
    (hK : 0 < st2.K) (hN : 0 < st2.N) (hmb : 0 < st2.message_bits) :
    lastResultsBytes st2 = some d := by
  rcases hmode with rfl | rfl
  · unfold handleEncoding at h
    simp only [show (INPUT_TEXT = INPUT_HEX_MANUAL) = False from by decide,
      show (INPUT_TEXT = INPUT_TEXT) = True from by decide, if_false, if_true] at h
    split at h
    · simp at h
    · split at h
      · simp at h
      · split at h
        · simp at h
        · split at h
          · simp at h
          · rw [Prod.mk.injEq] at h
            obtain ⟨rfl, hd⟩ := h
            rw [Option.some.injEq] at hd
            subst hd
            rw [lastResultsBytes, if_pos ⟨hK, hN, hmb⟩]
  · unfold handleEncoding at h
    simp only [show (INPUT_HEX = INPUT_HEX_MANUAL) = False from by decide,
      show (INPUT_HEX = INPUT_TEXT) = False from by decide, if_false] at h
    split at h
    · simp at h
    · split at h
      · simp at h
      · split at h
        · simp at h
        · split at h
          · simp at h
          · rw [Prod.mk.injEq] at h
            obtain ⟨rfl, hd⟩ := h
            rw [Option.some.injEq] at hd
            subst hd
            rw [lastResultsBytes, if_pos ⟨hK, hN, hmb⟩]

/-- C10 witness: a completed text-mode session (message "A", device
parameters K = 4, N = 16, 2 blocks of 2 encoded bytes) displays 4 encoded
bytes, and option 5 redisplays the same 4. -/
theorem c10_witness :
    lastResultsBytes (handleEncoding initialClientState INPUT_TEXT 0 [65]
        [222, 173, 192, 222, 0, 4, 0, 16, 9, 9, 9, 9]).1 = some 4 := by
  have h2 : (handleEncoding initialClientState INPUT_TEXT 0 [65]
      [222, 173, 192, 222, 0, 4, 0, 16, 9, 9, 9, 9]).2 = some 4 := by decide
  exact c10_redisplay_agree initialClientState INPUT_TEXT 0 [65]
    [222, 173, 192, 222, 0, 4, 0, 16, 9, 9, 9, 9] _ 4 (Or.inl rfl)
    (Prod.mk.eta.symm.trans (by rw [h2])) (by decide) (by decide) (by decide)

end LdpcClient
